import Mathlib

/-!
# Verification of the finance-agent CSV pipeline

A shallow embedding of the CSV validation/cleaning pipeline and the
categorization/breakdown engine of the finance-agent repository
(`src/utils.py` and the validation-driven loader in `src/analyze_finances.py`).

Modelling conventions:
* Python strings are modelled as `List Char` (`Str`); a missing cell
  (pandas `NaN` / `None`) is `Option.none`.
* Python `float` values are modelled as exact rationals (`ℚ`); the builtin
  `float(s)` conversion is modelled by `pyFloat`, covering the sign /
  integer-digits / fractional-digits forms actually exercised by the
  pipeline (the exotic `float` spellings — exponents, `inf`, `nan`,
  digit-group underscores — are outside the model).
* Python `str(x)` on a parsed amount is modelled by `floatStr`, which renders
  the exact decimal expansion of the rational value.
* pandas dataframes are modelled as a list of column names plus a list of
  rows; each row carries the four canonical cells (`Date`, `Description`,
  `Amount`, `Type`) plus the remaining cells (`extra`), so that full-row
  equality (used by `duplicated` / `drop_duplicates`) is row equality.
-/

namespace FinAgent

/-- Python strings are modelled as lists of characters. -/
abbrev Str : Type := List Char

/-- Drop leading whitespace (left part of Python `str.strip`). -/
def trimLeft (l : Str) : Str := l.dropWhile Char.isWhitespace

/-- Model of Python `str.strip()`: drop leading and trailing whitespace. -/
def trimChars (l : Str) : Str := ((trimLeft l).reverse.dropWhile Char.isWhitespace).reverse

/-- Model of Python `str.lower()` (the pipeline only lower-cases ASCII text). -/
def lowerStr (l : Str) : Str := l.map Char.toLower

/-- Numeric value of a decimal digit character. -/
def digVal (c : Char) : ℕ := c.toNat - 48

/-- Value of a big-endian list of decimal digit characters. -/
def digitsVal (l : Str) : ℕ := l.foldl (fun a c => 10 * a + digVal c) 0

/-- Parse an unsigned decimal literal: digits, optionally followed by a dot
and further digits (`"1"`, `"1."`, `"1.5"`, `".5"`), as accepted by Python
`float`.  Returns the exact rational value. -/
def parseDigitsDot (l : Str) : Option ℚ :=
  let ip := l.takeWhile Char.isDigit
  let rest := l.dropWhile Char.isDigit
  match rest with
  | [] => if ip.isEmpty then none else some (digitsVal ip)
  | c :: fp =>
    if c = '.' ∧ fp.all Char.isDigit ∧ (ip.isEmpty = false ∨ fp.isEmpty = false) then
      some ((digitsVal ip : ℚ) + (digitsVal fp : ℚ) / 10 ^ fp.length)
    else none

/-- Model of Python `float(s)`: strip surrounding whitespace, handle an
optional sign, then parse an unsigned decimal literal. -/
def pyFloat (l : Str) : Option ℚ :=
  let t := trimChars l
  if t.head? = some '-' then (parseDigitsDot (t.drop 1)).map (fun q => -q)
  else if t.head? = some '+' then parseDigitsDot (t.drop 1)
  else parseDigitsDot t

/-- Model of `re.sub(r'[$,€£¥]', '', s)` in `_parse_amounts.clean_amount`. -/
def stripSymbols (l : Str) : Str :=
  l.filter (fun c => ¬ (c = '$' ∨ c = ',' ∨ c = '€' ∨ c = '£' ∨ c = '¥'))

/-- Model of the accounting-parentheses step of `clean_amount`: if the string
starts with `(` and ends with `)`, drop them and prepend a minus sign. -/
def parenNeg (l : Str) : Str :=
  if l.head? = some '(' ∧ l.getLast? = some ')' then '-' :: (l.drop 1).dropLast else l

/-- Model of `CSVValidator._parse_amounts.clean_amount` applied to one cell:
`None`/NaN gives `none`; otherwise strip whitespace, remove currency symbols
and commas, convert accounting parentheses to a leading minus, then parse as
a Python float. -/
def cleanAmount (v : Option Str) : Option ℚ :=
  match v with
  | none => none
  | some s => pyFloat (parenNeg (stripSymbols (trimChars s)))

/-- Model of the per-row amount test inside
`CSVValidator._validate_data_quality`: the amount is invalid when the cell is
missing, or when `float(str(v).replace('$', '').replace(',', ''))` fails —
note that only `$` and `,` are removed there, and parentheses are not
converted. -/
def qualityAmountBad (v : Option Str) : Bool :=
  match v with
  | none => true
  | some s => (pyFloat (s.filter (fun c => ¬ (c = '$' ∨ c = ',')))).isNone

/-- Character for a decimal digit value (`0 ↦ '0'`, …, `9 ↦ '9'`). -/
def digitChar (d : ℕ) : Char := Char.ofNat (48 + d)

/-- Fuel-driven big-endian decimal printer for naturals; returns `[]` for 0.
The fuel argument makes the definition structurally recursive, so that the
kernel can evaluate it inside `decide`. -/
def natStrAux : ℕ → ℕ → Str
  | 0, _ => []
  | fuel + 1, n => if n = 0 then [] else natStrAux fuel (n / 10) ++ [digitChar (n % 10)]

/-- Big-endian decimal rendering of a natural number (`0 ↦ "0"`). -/
def natStr (n : ℕ) : Str := if n = 0 then ['0'] else natStrAux (n + 1) n

/-- Left-pad a digit string with zeros to length `k`. -/
def padZeros (k : ℕ) (l : Str) : Str := List.replicate (k - l.length) '0' ++ l

/-- Fuel-driven count of the multiplicity of `p` in `n` (for `p ≥ 2`). -/
def fcAux : ℕ → ℕ → ℕ → ℕ
  | 0, _, _ => 0
  | fuel + 1, p, n => if 2 ≤ p ∧ 2 ≤ n ∧ p ∣ n then fcAux fuel p (n / p) + 1 else 0

/-- Multiplicity of `p` in `n` (for `p ≥ 2`; 0 on degenerate inputs). -/
def fc (p n : ℕ) : ℕ := fcAux n p n

/-- Number of decimal digits needed after the point to write a rational with
denominator `den` exactly (meaningful when `den` divides a power of 10). -/
def decExp (den : ℕ) : ℕ := max (fc 2 den) (fc 5 (den / 2 ^ fc 2 den))

/-- Model of Python `str` applied to a parsed amount: renders the exact
decimal expansion of the rational (sign, integer digits, point, fractional
digits — always at least one fractional digit, as Python prints `50.0`). -/
def floatStr (q : ℚ) : Str :=
  let k := decExp q.den
  let m := q.num.natAbs * 10 ^ k / q.den
  let ipart := natStr (m / 10 ^ k)
  let fpart := if k = 0 then ['0'] else padZeros k (natStr (m % 10 ^ k))
  (if q < 0 then ['-'] else []) ++ ipart ++ '.' :: fpart

/-- A parsed timestamp (model of the pandas `Timestamp` produced by
`pd.to_datetime` with an explicit format). -/
structure Date where
  year : ℕ
  month : ℕ
  day : ℕ
  hour : ℕ
  minute : ℕ
  second : ℕ
deriving DecidableEq

/-- Split a character list on a separator character. -/
def splitOnChar (sep : Char) : Str → List Str
  | [] => [[]]
  | c :: cs =>
    match splitOnChar sep cs with
    | [] => if c = sep then [[], []] else [[c]]
    | h :: t => if c = sep then [] :: h :: t else (c :: h) :: t

/-- Parse a nonempty all-digit field of at most `w` characters. -/
def digitField (w : ℕ) (l : Str) : Option ℕ :=
  if l.isEmpty = false ∧ l.length ≤ w ∧ l.all Char.isDigit then some (digitsVal l) else none

/-- Gregorian leap-year test (as validated by `datetime`). -/
def isLeap (y : ℕ) : Bool := (y % 4 = 0 ∧ y % 100 ≠ 0) ∨ y % 400 = 0

/-- Days in a month of a given year. -/
def daysInMonth (y m : ℕ) : ℕ :=
  if m = 2 then (if isLeap y then 29 else 28)
  else if m = 4 ∨ m = 6 ∨ m = 9 ∨ m = 11 then 30 else 31

/-- Build a date if the year/month/day triple is a valid calendar date
(`strptime` rejects out-of-range components). -/
def mkDate (y m d : ℕ) : Option Date :=
  if 1 ≤ m ∧ m ≤ 12 ∧ 1 ≤ d ∧ d ≤ daysInMonth y m then some ⟨y, m, d, 0, 0, 0⟩ else none

/-- Python `strptime` mapping of a two-digit year: 0–68 → 2000s, 69–99 → 1900s. -/
def expandYY (y : ℕ) : ℕ := if y ≤ 68 then 2000 + y else 1900 + y

/-- Parse `sep`-separated year-month-day (`%Y⟨sep⟩%m⟨sep⟩%d`, four-digit year). -/
def fmtYmd (sep : Char) (s : Str) : Option Date :=
  match splitOnChar sep s with
  | [ys, ms, ds] =>
    match digitField 4 ys, digitField 2 ms, digitField 2 ds with
    | some y, some m, some d => if ys.length = 4 then mkDate y m d else none
    | _, _, _ => none
  | _ => none

/-- Parse `sep`-separated month-day-year (`%m⟨sep⟩%d⟨sep⟩%Y`, four-digit year). -/
def fmtMdy (sep : Char) (s : Str) : Option Date :=
  match splitOnChar sep s with
  | [ms, ds, ys] =>
    match digitField 4 ys, digitField 2 ms, digitField 2 ds with
    | some y, some m, some d => if ys.length = 4 then mkDate y m d else none
    | _, _, _ => none
  | _ => none

/-- Parse day-month-year with slashes (`%d/%m/%Y`). -/
def fmtDmy (s : Str) : Option Date :=
  match splitOnChar '/' s with
  | [ds, ms, ys] =>
    match digitField 4 ys, digitField 2 ms, digitField 2 ds with
    | some y, some m, some d => if ys.length = 4 then mkDate y m d else none
    | _, _, _ => none
  | _ => none

/-- Parse month/day with a two-digit year (`%m/%d/%y`). -/
def fmtMdy2 (s : Str) : Option Date :=
  match splitOnChar '/' s with
  | [ms, ds, ys] =>
    match digitField 2 ys, digitField 2 ms, digitField 2 ds with
    | some y, some m, some d => if ys.length = 2 then mkDate (expandYY y) m d else none
    | _, _, _ => none
  | _ => none

/-- Parse `%Y-%m-%d %H:%M:%S`. -/
def fmtYmdHms (s : Str) : Option Date :=
  match splitOnChar ' ' s with
  | [ds, ts] =>
    match fmtYmd '-' ds, splitOnChar ':' ts with
    | some base, [hs, ms, ss] =>
      match digitField 2 hs, digitField 2 ms, digitField 2 ss with
      | some h, some mi, some se =>
        if h ≤ 23 ∧ mi ≤ 59 ∧ se ≤ 61 then some { base with hour := h, minute := mi, second := se }
        else none
      | _, _, _ => none
    | _, _ => none
  | _ => none

/-- Model of `CSVValidator._parse_dates.parse_date` applied to one cell:
`NaN → NaT`; otherwise strip the string and try the seven explicit formats in
order.  The permissive `pd.to_datetime` fallback of the source is modelled as
returning `none`; no property proved below depends on which extra strings
that fallback would accept. -/
def parseDate (v : Option Str) : Option Date :=
  match v with
  | none => none
  | some s =>
    let t := trimChars s
    (fmtYmd '-' t) <|> (fmtMdy '/' t) <|> (fmtMdy '-' t) <|> (fmtDmy t) <|>
      (fmtYmd '/' t) <|> (fmtMdy2 t) <|> (fmtYmdHms t)

/-- The synonyms mapped to `Debit` by `_standardize_types`. -/
def debitSynonyms : List Str :=
  ["debit".toList, "withdrawal".toList, "expense".toList, "out".toList, "-".toList]

/-- The synonyms mapped to `Credit` by `_standardize_types`. -/
def creditSynonyms : List Str :=
  ["credit".toList, "deposit".toList, "income".toList, "in".toList, "+".toList]

/-- Model of `CSVValidator._standardize_types.standardize_type`: `NaN →
"Unknown"`; otherwise strip, lower-case and map through the synonym sets. -/
def standardizeType (v : Option Str) : Str :=
  match v with
  | none => "Unknown".toList
  | some s =>
    let t := lowerStr (trimChars s)
    if debitSynonyms.contains t then "Debit".toList
    else if creditSynonyms.contains t then "Credit".toList
    else "Unknown".toList

/-- A raw CSV row as loaded by `pd.read_csv`: the four canonical cells plus
the cells of any remaining (optional or unknown) columns.  A `none` cell is a
pandas `NaN`. -/
structure RawRow where
  date : Option Str
  description : Option Str
  amount : Option Str
  rtype : Option Str
  extra : List (Option Str)
deriving DecidableEq

/-- A loaded dataframe: its column names and its rows. -/
structure DataFrame where
  columns : List Str
  rows : List RawRow

/-- A cleaned row, after `clean_and_validate_data` has applied the three
parsers (date and amount may be `none` until the `dropna` step removes such
rows; the standardized type is always present). -/
structure CleanRow where
  date : Option Date
  description : Option Str
  amount : Option ℚ
  rtype : Str
  extra : List (Option Str)
deriving DecidableEq

/-- `CSVValidator.REQUIRED_COLUMNS`. -/
def requiredColumns : List Str :=
  ["Date".toList, "Description".toList, "Amount".toList, "Type".toList]

/-- `CSVValidator.OPTIONAL_COLUMNS`. -/
def optionalColumns : List Str :=
  ["Category".toList, "Account".toList, "Balance".toList]

/-- `CSVValidator.VALID_TYPES` — the case-sensitive allow-list used by the
quality check. -/
def validTypes : List Str :=
  ["Debit".toList, "Credit".toList, "debit".toList, "credit".toList]

/-- Keep the first occurrence of every value, dropping later duplicates
(model of pandas `drop_duplicates`, which keeps first occurrences and treats
equal `NaN` cells as equal). -/
def dedupFirst {α : Type} [DecidableEq α] : List α → List α
  | [] => []
  | x :: xs => x :: (dedupFirst xs).filter (fun y => decide ¬ (y = x))

/-- The Python apostrophe-quoted `repr` of one cell as it appears inside a
printed list (`NaN` prints as `nan`). -/
def cellRepr (v : Option Str) : Str :=
  match v with
  | none => "nan".toList
  | some s => Char.ofNat 39 :: s ++ [Char.ofNat 39]

/-- The Python `repr` of a list of strings, as interpolated into f-strings
(`['Date', 'Type']`). -/
def pyStrListRepr (l : List Str) : Str :=
  '[' :: (List.intercalate ", ".toList (l.map (fun s => cellRepr (some s)))) ++ [']']

/-- The per-row date test of `_validate_data_quality`: invalid when missing
or blank after strip. -/
def qualityDateBad (v : Option Str) : Bool :=
  match v with
  | none => true
  | some s => (trimChars s).isEmpty

/-- The per-row type test of `_validate_data_quality`: invalid when the raw
cell is not (case-sensitively) one of `VALID_TYPES`; a missing cell is never
equal to a list member, so it also counts. -/
def qualityTypeBad (v : Option Str) : Bool :=
  match v with
  | none => true
  | some s => ¬ validTypes.contains s

/-- The `data_quality` record of the validation result. -/
structure QualityCounts where
  total_rows : ℕ
  valid_rows : ℕ
  date_errors : ℕ
  amount_errors : ℕ
  type_errors : ℕ
  duplicate_count : ℕ
deriving DecidableEq

/-- The result of `validate_csv_structure` (`column_info` is always left
empty by the source and is omitted). -/
structure ValidationResult where
  is_valid : Bool
  errors : List Str
  warnings : List Str
  data_quality : Option QualityCounts
deriving DecidableEq

/-- Model of `CSVValidator._validate_data_quality`: count duplicate rows,
missing/blank dates, unparseable amounts and off-list types, and report
`valid_rows = total_rows - max(date_errors, amount_errors, type_errors)`.
Returns the counts together with the warning strings the source builds
(its `errors` list is never appended to and stays empty). -/
def validateDataQuality (df : DataFrame) : QualityCounts × List Str :=
  let n := df.rows.length
  let dup := n - (dedupFirst df.rows).length
  let de := df.rows.countP (fun r => qualityDateBad r.date)
  let ae := df.rows.countP (fun r => qualityAmountBad r.amount)
  let te := if df.columns.contains "Type".toList
    then df.rows.countP (fun r => qualityTypeBad r.rtype) else 0
  let w1 := if 0 < dup then ["Found ".toList ++ natStr dup ++ " duplicate transactions".toList] else []
  let w2 := if 0 < de then ["Found ".toList ++ natStr de ++ " invalid/missing dates".toList] else []
  let w3 := if 0 < ae then ["Found ".toList ++ natStr ae ++ " invalid amounts".toList] else []
  let w4 := if df.columns.contains "Type".toList ∧ 0 < te
    then ["Found ".toList ++ natStr te ++ " invalid transaction types: ".toList ++
      '[' :: (List.intercalate ", ".toList
        ((dedupFirst ((df.rows.filter (fun r => qualityTypeBad r.rtype)).map (fun r => r.rtype))).map cellRepr)) ++ [']']]
    else []
  (⟨n, n - max de (max ae te), de, ae, te, dup⟩, w1 ++ w2 ++ w3 ++ w4)

/-- Model of `CSVValidator.validate_csv_structure`: flag missing required
columns as an error (making the result invalid), flag unknown columns as a
warning, and — only when structurally valid — run the quality check, whose
`errors`/`warnings`/`data_quality` entries replace the structural ones
(Python `dict.update`). -/
def validateCsvStructure (df : DataFrame) : ValidationResult :=
  let missing := requiredColumns.filter (fun c => ¬ df.columns.contains c)
  let extra := df.columns.filter
    (fun c => ¬ (requiredColumns.contains c ∨ optionalColumns.contains c))
  let errors := if missing.isEmpty then []
    else ["Missing required columns: ".toList ++ pyStrListRepr missing]
  let warnings := if extra.isEmpty then []
    else ["Unknown columns found: ".toList ++ pyStrListRepr extra]
  if missing.isEmpty then
    let q := validateDataQuality df
    ⟨true, [], q.2, some q.1⟩
  else ⟨false, errors, warnings, none⟩

/-- Apply the three field parsers to one row (`Description` and the
remaining cells are untouched). -/
def cleanRow (r : RawRow) : CleanRow :=
  ⟨parseDate r.date, r.description, cleanAmount r.amount, standardizeType r.rtype, r.extra⟩

/-- Model of `CSVValidator.clean_and_validate_data`: parse every row, drop
rows whose cleaned date or amount is missing, then drop duplicate rows —
in that order. -/
def cleanAndValidateData (rows : List RawRow) : List CleanRow :=
  dedupFirst (((rows.map cleanRow)).filter (fun r => r.date.isSome && r.amount.isSome))

/-- Model of the validation-driven part of `FinanceAgent.load_transactions`
(after the file has been read): validate the structure, and on failure raise
`DataValidationError` carrying the semicolon-joined error strings without
cleaning; on success clean the data. -/
def loadTransactions (df : DataFrame) : Except Str (List CleanRow) :=
  let vr := validateCsvStructure df
  if vr.is_valid then Except.ok (cleanAndValidateData df.rows)
  else Except.error ("CSV validation failed: ".toList ++ List.intercalate "; ".toList vr.errors)

/-- The fixed category enumeration of `_categorize_transactions`
(`category_keywords` insertion order, `Other` last). -/
inductive Category where
  | Groceries
  | Dining
  | Transportation
  | Bills
  | Shopping
  | Entertainment
  | Healthcare
  | Other
deriving DecidableEq

/-- The keyword set of each category (`category_keywords` in the source). -/
def categoryKeywords : Category → List Str
  | Category.Groceries =>
    ["grocery".toList, "whole foods".toList, "trader joe".toList, "costco".toList,
      "safeway".toList, "kroger".toList, "walmart".toList, "food".toList]
  | Category.Dining =>
    ["restaurant".toList, "cafe".toList, "coffee".toList, "starbucks".toList,
      "mcdonald".toList, "burger".toList, "pizza".toList, "chipotle".toList,
      "uber eats".toList, "doordash".toList]
  | Category.Transportation =>
    ["gas".toList, "fuel".toList, "uber".toList, "lyft".toList, "taxi".toList,
      "parking".toList, "metro".toList, "bus".toList, "train".toList]
  | Category.Bills =>
    ["electric".toList, "gas bill".toList, "water".toList, "internet".toList,
      "phone".toList, "cable".toList, "insurance".toList, "rent".toList, "mortgage".toList]
  | Category.Shopping =>
    ["amazon".toList, "target".toList, "mall".toList, "store".toList,
      "shopping".toList, "clothing".toList, "retail".toList]
  | Category.Entertainment =>
    ["netflix".toList, "spotify".toList, "movie".toList, "theater".toList,
      "game".toList, "entertainment".toList, "subscription".toList]
  | Category.Healthcare =>
    ["pharmacy".toList, "doctor".toList, "medical".toList, "health".toList,
      "cvs".toList, "walgreen".toList]
  | Category.Other => []

/-- All categories, in `category_keywords` insertion order. -/
def catEnum : List Category :=
  [Category.Groceries, Category.Dining, Category.Transportation, Category.Bills,
    Category.Shopping, Category.Entertainment, Category.Healthcare, Category.Other]

/-- The categories iterated by the keyword-matching loop (the loop executes
`continue` on `Other`). -/
def catMatchOrder : List Category :=
  [Category.Groceries, Category.Dining, Category.Transportation, Category.Bills,
    Category.Shopping, Category.Entertainment, Category.Healthcare]

/-- Position of a category in the fixed enumeration order. -/
def catIdx : Category → ℕ
  | Category.Groceries => 0
  | Category.Dining => 1
  | Category.Transportation => 2
  | Category.Bills => 3
  | Category.Shopping => 4
  | Category.Entertainment => 5
  | Category.Healthcare => 6
  | Category.Other => 7

/-- Boolean prefix test on character lists. -/
def startsWithChars : Str → Str → Bool
  | [], _ => true
  | _ :: _, [] => false
  | c :: cs, d :: ds => c = d && startsWithChars cs ds

/-- Boolean contiguous-substring test on character lists (Python `in`). -/
def containsSub (pat : Str) : Str → Bool
  | [] => pat.isEmpty
  | c :: cs => startsWithChars pat (c :: cs) || containsSub pat cs

/-- Model of the per-category row mask
`df['Description'].str.lower().str.contains('|'.join(keywords), na=False)`:
the lower-cased description contains some keyword of the category (the
keywords contain no regex metacharacters, so the joined pattern is a plain
alternation of substrings); a missing description never matches. -/
def catMatches (c : Category) (d : Option Str) : Bool :=
  match d with
  | none => false
  | some s => (categoryKeywords c).any (fun k => containsSub k (lowerStr s))

/-- The category assigned to a description by the masking loop of
`_categorize_transactions`: starting from the default `Other`, each category
in listed order overwrites the assignment of every row its mask matches, so
the *last* matching category in the enumeration wins. -/
def assignCategory (d : Option Str) : Category :=
  catMatchOrder.foldl (fun acc c => if catMatches c d then c else acc) Category.Other

/-- A transaction row as consumed by the breakdown calculator: the cleaned
amount and the (possibly missing) description. -/
structure TxRow where
  description : Option Str
  amount : ℚ
deriving DecidableEq

/-- One value of the per-category statistics mapping. -/
structure CatEntry where
  total : ℚ
  count : ℕ
  average : ℚ
  percentage : ℚ
deriving DecidableEq

/-- The rows assigned to category `c` by the masking loop. -/
def catRows (rows : List TxRow) (c : Category) : List TxRow :=
  rows.filter (fun r => decide (assignCategory r.description = c))

/-- The statistics entry built for category `c` (`none` when no row is
assigned to it): the absolute summed amount, the row count, the average, and
a placeholder percentage 0. -/
def entryFor (rows : List TxRow) (c : Category) : Option (Category × CatEntry) :=
  if (catRows rows c).isEmpty then none
  else
    some (c, ⟨|(((catRows rows c).map (fun r => r.amount)).sum)|, (catRows rows c).length,
      if 0 < (catRows rows c).length
        then |(((catRows rows c).map (fun r => r.amount)).sum)| / (catRows rows c).length
        else 0,
      0⟩)

/-- The per-category mapping in enumeration order, before percentages and
sorting. -/
def entriesPre (rows : List TxRow) : List (Category × CatEntry) :=
  catEnum.filterMap (entryFor rows)

/-- Total categorized spending: the sum of all category totals. -/
def totalSpending (l : List (Category × CatEntry)) : ℚ :=
  ((l.map (fun p => p.2.total)).sum)

/-- The percentage pass of `_categorize_transactions`: when total spending
`ts` is positive, replace each placeholder percentage by `total / ts × 100`. -/
def applyPct (ts : ℚ) (pre : List (Category × CatEntry)) : List (Category × CatEntry) :=
  if 0 < ts then pre.map (fun p => (p.1, ⟨p.2.total, p.2.count, p.2.average, p.2.total / ts * 100⟩))
  else pre

/-- The category mapping with percentages filled in, before sorting. -/
def entriesWithPct (rows : List TxRow) : List (Category × CatEntry) :=
  applyPct (totalSpending (entriesPre rows)) (entriesPre rows)

/-- Stable descending insertion by `total`: the inserted element precedes the
first existing element whose total is not larger (model of Python's stable
`sorted(..., key=total, reverse=True)`). -/
def insDesc (x : Category × CatEntry) : List (Category × CatEntry) → List (Category × CatEntry)
  | [] => [x]
  | y :: ys => if y.2.total ≤ x.2.total then x :: y :: ys else y :: insDesc x ys

/-- Stable sort of the category mapping, descending by `total`. -/
def sortDesc (l : List (Category × CatEntry)) : List (Category × CatEntry) :=
  l.foldr insDesc []

/-- Model of `DataFormatter._categorize_transactions`: empty input yields the
empty mapping; otherwise build the per-category statistics in enumeration
order, fill in percentages, and stably sort descending by total. -/
def categorizeTransactions (rows : List TxRow) : List (Category × CatEntry) :=
  if rows.isEmpty then [] else sortDesc (entriesWithPct rows)

/-- The `summary` block of the breakdown. -/
structure Summary where
  total_income : ℚ
  total_spent : ℚ
  net_flow : ℚ
  transaction_count : ℕ
deriving DecidableEq

/-- The `by_type` block of the breakdown. -/
structure ByType where
  income_count : ℕ
  expense_count : ℕ
deriving DecidableEq

/-- The full result of `calculate_spending_breakdown`. -/
structure Breakdown where
  summary : Summary
  categories : List (Category × CatEntry)
  by_type : ByType
deriving DecidableEq

/-- Model of `DataFormatter.calculate_spending_breakdown`: split rows into
expenses (`amount < 0`) and income (`amount > 0`), total them, categorize the
expenses, and assemble the summary. -/
def calculateSpendingBreakdown (rows : List TxRow) : Breakdown :=
  let expenses := rows.filter (fun r => decide (r.amount < 0))
  let income := rows.filter (fun r => decide (0 < r.amount))
  let total_spent := if expenses.isEmpty then 0 else |((expenses.map (fun r => r.amount)).sum)|
  let total_income := if income.isEmpty then 0 else ((income.map (fun r => r.amount)).sum)
  ⟨⟨total_income, total_spent, total_income - total_spent, rows.length⟩,
    categorizeTransactions expenses,
    ⟨income.length, expenses.length⟩⟩

/-- Round a rational to the nearest integer, ties to even (the rounding used
by Python's fixed-point `format`). -/
def roundHalfEven (q : ℚ) : ℤ :=
  let f := q - ⌊q⌋
  if f < 1 / 2 then ⌊q⌋
  else if 1 / 2 < f then ⌊q⌋ + 1
  else if ⌊q⌋ % 2 = 0 then ⌊q⌋ else ⌊q⌋ + 1

/-- Insert thousands separators into a big-endian digit string: walking from
the least-significant end, a comma is placed before every third digit. -/
def groupThousands (l : Str) : Str :=
  ((l.reverse.enum.map
    (fun p => if p.1 % 3 = 0 ∧ p.1 ≠ 0 then [',', p.2] else [p.2])).flatten).reverse

/-- Model of the Python format `f"{x:,.2f}"` applied to a nonnegative
rational: two fixed decimals with comma thousands separators. -/
def fixedTwo (q : ℚ) : Str :=
  let c := (roundHalfEven (q * 100)).toNat
  groupThousands (natStr (c / 100)) ++ '.' :: padZeros 2 (natStr (c % 100))

/-- Model of `DataFormatter.format_currency` with the default `$` symbol:
`NaN ↦ "$0.00"`, otherwise the symbol followed by the formatted absolute
value. -/
def formatCurrency (v : Option ℚ) : Str :=
  match v with
  | none => "$0.00".toList
  | some a => '$' :: fixedTwo |a|

/-! ## General helper lemmas -/

attribute [local semireducible] Rat.add Rat.mul Rat.sub Rat.inv Rat.ofScientific

theorem digitChar_isDigit {d : ℕ} (h : d < 10) : (digitChar d).isDigit = true := by
  interval_cases d <;> decide

theorem natStrAux_digits {fuel n : ℕ} {c : Char} (h : c ∈ natStrAux fuel n) :
    c.isDigit = true := by
  induction fuel generalizing n with
  | zero => simp [natStrAux] at h
  | succ fuel ih =>
    rw [natStrAux] at h
    by_cases hn : n = 0
    · simp [hn] at h
    · simp only [hn, if_false, List.mem_append, List.mem_singleton] at h
      rcases h with h | h
      · exact ih h
      · exact h ▸ digitChar_isDigit (Nat.mod_lt _ (by norm_num))

theorem natStr_digits {n : ℕ} {c : Char} (h : c ∈ natStr n) : c.isDigit = true := by
  rw [natStr] at h
  by_cases hn : n = 0
  · simp [hn] at h; simp [h]
  · simp only [hn, if_false] at h
    exact natStrAux_digits h

theorem padZeros_mem {k : ℕ} {l : Str} {c : Char} (h : c ∈ padZeros k l) :
    c = '0' ∨ c ∈ l := by
  rw [padZeros] at h
  rcases List.mem_append.1 h with h | h
  · exact Or.inl (List.eq_of_mem_replicate h)
  · exact Or.inr h

theorem groupThousands_mem {l : Str} {c : Char} (h : c ∈ groupThousands l) :
    c = ',' ∨ c ∈ l := by
  rw [groupThousands] at h
  rw [List.mem_reverse, List.mem_flatten] at h
  obtain ⟨s, hs, hcs⟩ := h
  obtain ⟨p, hp, rfl⟩ := List.mem_map.1 hs
  have hpl : p.2 ∈ l := List.mem_reverse.1 (List.snd_mem_of_mem_enum hp)
  by_cases hcond : p.1 % 3 = 0 ∧ p.1 ≠ 0
  · rw [if_pos hcond] at hcs
    rcases List.mem_cons.1 hcs with h | h
    · exact Or.inl h
    · exact Or.inr ((List.mem_singleton.1 h) ▸ hpl)
  · rw [if_neg hcond] at hcs
    exact Or.inr ((List.mem_singleton.1 hcs) ▸ hpl)

theorem fixedTwo_mem {q : ℚ} {c : Char} (h : c ∈ fixedTwo q) :
    c = ',' ∨ c = '.' ∨ c.isDigit = true := by
  rw [fixedTwo] at h
  rcases List.mem_append.1 h with h | h
  · rcases groupThousands_mem h with h | h
    · exact Or.inl h
    · exact Or.inr (Or.inr (natStr_digits h))
  · rcases List.mem_cons.1 h with h | h
    · exact Or.inr (Or.inl h)
    · rcases padZeros_mem h with h | h
      · subst h; exact Or.inr (Or.inr (by decide))
      · exact Or.inr (Or.inr (natStr_digits h))

/-! ## C10 — `format_currency` renders the absolute value -/

/-- C10: for every numeric amount `a`, `format_currency a = format_currency (-a)`:
the formatter renders the absolute value, so a negative amount (for example a
negative net flow in the report summary) is displayed as a positive currency
string with no minus sign, and a missing amount renders as `$0.00`. -/
theorem formatCurrency_abs_symmetric :
    (∀ a : ℚ, formatCurrency (some a) = formatCurrency (some (-a)))
    ∧ (∀ a : ℚ, '-' ∉ formatCurrency (some a))
    ∧ formatCurrency none = "$0.00".toList := by
  refine ⟨fun a => ?_, fun a hmem => ?_, rfl⟩
  · simp [formatCurrency, abs_neg]
  · rw [formatCurrency] at hmem
    rcases List.mem_cons.1 hmem with h | h
    · exact absurd h (by decide)
    · rcases fixedTwo_mem h with h | h | h <;> simp_all

/-! ## C5 — income/expense partition in the breakdown summary -/

theorem sum_filter_map_eq_sum_ite (rows : List TxRow) (p : TxRow → Bool) (f : TxRow → ℚ) :
    (((rows.filter p).map f).sum) = ((rows.map (fun r => if p r then f r else 0)).sum) := by
  induction rows with
  | nil => rfl
  | cons r t ih =>
    by_cases hp : p r <;> simp [List.filter_cons, hp, ih]

theorem sum_nonpos_of_mem_nonpos {l : List ℚ} (h : ∀ x ∈ l, x ≤ 0) : l.sum ≤ 0 := by
  induction l with
  | nil => simp
  | cons x t ih =>
    simp only [List.sum_cons]
    have hx := h x (List.mem_cons_self x t)
    have ht := ih (fun y hy => h y (List.mem_cons_of_mem x hy))
    linarith

theorem countP_trichotomy (rows : List TxRow) :
    rows.countP (fun r => decide (r.amount < 0)) + rows.countP (fun r => decide (0 < r.amount))
      + rows.countP (fun r => decide (r.amount = 0)) = rows.length := by
  induction rows with
  | nil => rfl
  | cons r t ih =>
    rcases lt_trichotomy r.amount 0 with h | h | h
    · simp only [List.countP_cons, decide_eq_true_eq, List.length_cons]
      simp [h, lt_asymm h, ne_of_lt h]
      omega
    · simp only [List.countP_cons, decide_eq_true_eq, List.length_cons]
      simp [h]
      omega
    · simp only [List.countP_cons, decide_eq_true_eq, List.length_cons]
      simp [h, lt_asymm h, ne_of_gt h]
      omega

/-- C5: `calculate_spending_breakdown` partitions rows into expenses
(`amount < 0`) and income (`amount > 0`); rows with amount exactly 0 are in
neither partition and contribute to neither sum, yet are counted in
`transaction_count`; `total_spent` is the absolute value of the summed
expense amounts, `total_income` the sum of income amounts, and `net_flow`
their difference. -/
theorem calculateSpendingBreakdown_partition (rows : List TxRow) :
    (calculateSpendingBreakdown rows).summary.total_spent
      = ((rows.map (fun r => if r.amount < 0 then -r.amount else 0)).sum)
    ∧ (calculateSpendingBreakdown rows).summary.total_income
      = ((rows.map (fun r => if 0 < r.amount then r.amount else 0)).sum)
    ∧ (calculateSpendingBreakdown rows).summary.net_flow
      = (calculateSpendingBreakdown rows).summary.total_income
        - (calculateSpendingBreakdown rows).summary.total_spent
    ∧ (calculateSpendingBreakdown rows).summary.transaction_count = rows.length
    ∧ (calculateSpendingBreakdown rows).by_type.expense_count
      = rows.countP (fun r => decide (r.amount < 0))
    ∧ (calculateSpendingBreakdown rows).by_type.income_count
      = rows.countP (fun r => decide (0 < r.amount))
    ∧ (calculateSpendingBreakdown rows).by_type.expense_count
        + (calculateSpendingBreakdown rows).by_type.income_count
        + rows.countP (fun r => decide (r.amount = 0)) = rows.length := by
  refine ⟨?_, ?_, rfl, rfl, ?_, ?_, ?_⟩
  · show (if (rows.filter (fun r => decide (r.amount < 0))).isEmpty then (0 : ℚ)
      else |(((rows.filter (fun r => decide (r.amount < 0))).map (fun r => r.amount)).sum)|) = _
    by_cases he : (rows.filter (fun r => decide (r.amount < 0))).isEmpty
    · rw [if_pos he]
      have hnil : rows.filter (fun r => decide (r.amount < 0)) = [] := by
        simpa [List.isEmpty_iff] using he
      have hall : ∀ r ∈ rows, ¬ r.amount < 0 := by
        intro r hr hlt
        have : r ∈ rows.filter (fun r => decide (r.amount < 0)) :=
          List.mem_filter.2 ⟨hr, by simpa using hlt⟩
        simp [hnil] at this
      have : rows.map (fun r => if r.amount < 0 then -r.amount else 0)
          = rows.map (fun _ => (0 : ℚ)) :=
        List.map_congr_left (fun r hr => by simp [hall r hr])
      simp [this]
    · rw [if_neg he]
      have hle : (((rows.filter (fun r => decide (r.amount < 0))).map (fun r => r.amount)).sum) ≤ 0 := by
        refine sum_nonpos_of_mem_nonpos ?_
        intro x hx
        obtain ⟨r, hr, rfl⟩ := List.mem_map.1 hx
        have := (List.mem_filter.1 hr).2
        simp only [decide_eq_true_eq] at this
        linarith
      rw [abs_of_nonpos hle]
      have hneg : -(((rows.filter (fun r => decide (r.amount < 0))).map (fun r => r.amount)).sum)
          = (((rows.filter (fun r => decide (r.amount < 0))).map (fun r => -r.amount)).sum) := by
        induction (rows.filter (fun r => decide (r.amount < 0))) with
        | nil => simp
        | cons x t ih => simp [ih]; ring
      rw [hneg, sum_filter_map_eq_sum_ite rows _ (fun r => -r.amount)]
      refine congrArg List.sum (List.map_congr_left (fun r _ => ?_))
      by_cases hr : r.amount < 0 <;> simp [hr]
  · show (if (rows.filter (fun r => decide (0 < r.amount))).isEmpty then (0 : ℚ)
      else (((rows.filter (fun r => decide (0 < r.amount))).map (fun r => r.amount)).sum)) = _
    by_cases he : (rows.filter (fun r => decide (0 < r.amount))).isEmpty
    · rw [if_pos he]
      have hnil : rows.filter (fun r => decide (0 < r.amount)) = [] := by
        simpa [List.isEmpty_iff] using he
      have hall : ∀ r ∈ rows, ¬ 0 < r.amount := by
        intro r hr hlt
        have : r ∈ rows.filter (fun r => decide (0 < r.amount)) :=
          List.mem_filter.2 ⟨hr, by simpa using hlt⟩
        simp [hnil] at this
      have : rows.map (fun r => if 0 < r.amount then r.amount else 0)
          = rows.map (fun _ => (0 : ℚ)) :=
        List.map_congr_left (fun r hr => by simp [hall r hr])
      simp [this]
    · rw [if_neg he]
      rw [sum_filter_map_eq_sum_ite rows _ (fun r => r.amount)]
      refine congrArg List.sum (List.map_congr_left (fun r _ => ?_))
      by_cases hr : 0 < r.amount <;> simp [hr]
  · show (rows.filter (fun r => decide (r.amount < 0))).length = _
    rw [List.countP_eq_length_filter]
  · show (rows.filter (fun r => decide (0 < r.amount))).length = _
    rw [List.countP_eq_length_filter]
  · show (rows.filter (fun r => decide (r.amount < 0))).length
        + (rows.filter (fun r => decide (0 < r.amount))).length + _ = _
    rw [← List.countP_eq_length_filter, ← List.countP_eq_length_filter]
    exact countP_trichotomy rows

/-! ## C1 — which category wins when several keywords match

The claim asserts first-match-wins; in the source the masking loop
overwrites the `Category` column for each category in listed order, so the
*last* matching category wins. -/

theorem foldl_if_eq_getLastD {α : Type} (p : α → Bool) (l : List α) (init : α) :
    l.foldl (fun acc c => if p c then c else acc) init = (l.filter p).getLastD init := by
  induction l generalizing init with
  | nil => rfl
  | cons c t ih =>
    rw [List.foldl_cons, ih, List.filter_cons]
    by_cases hc : p c
    · rw [if_pos hc, if_pos hc, List.getLastD_cons]
    · rw [if_neg hc, if_neg hc]

/-- C1 counterexample: the description `"coffee amazon"` matches both Dining
(`"coffee"`) and Shopping (`"amazon"`); Dining is the earliest matching
category in the enumeration (so the claim as stated assigns Dining), yet the
code assigns Shopping. -/
theorem assignCategory_first_match_false :
    catMatches Category.Dining (some "coffee amazon".toList) = true
    ∧ catMatches Category.Shopping (some "coffee amazon".toList) = true
    ∧ catIdx Category.Dining < catIdx Category.Shopping
    ∧ (∀ c : Category, catMatches c (some "coffee amazon".toList) = true →
        catIdx Category.Dining ≤ catIdx c)
    ∧ assignCategory (some "coffee amazon".toList) = Category.Shopping
    ∧ Category.Shopping ≠ Category.Dining := by
  refine ⟨by decide, by decide, by decide, ?_, by decide, by decide⟩
  intro c
  cases c <;> decide

/-- C1 amended: for every expense row whose lower-cased description contains
keywords of two or more categories, classification assigns the category that
appears *last* in the fixed enumeration order — each category in listed
order overwrites the assignment of the rows its mask matches, so the last
matching category wins. -/
theorem assignCategory_last_match (d : Option Str) (c₁ c₂ : Category)
    (_h₁ : catMatches c₁ d = true) (_h₂ : catMatches c₂ d = true) (_hne : c₁ ≠ c₂) :
    assignCategory d
      = (catMatchOrder.filter (fun c => catMatches c d)).getLastD Category.Other :=
  foldl_if_eq_getLastD _ _ _

/-- Witness for the C1 amended theorem at the counterexample description. -/
theorem assignCategory_last_match_witness :
    assignCategory (some "coffee amazon".toList)
      = ((catMatchOrder.filter (fun c => catMatches c (some "coffee amazon".toList))).getLastD
          Category.Other) :=
  assignCategory_last_match (some "coffee amazon".toList) Category.Dining Category.Shopping
    (by decide) (by decide) (by decide)

/-! ## C2 — what the quality check strips from an amount

The claim asserts the quality check strips `$ € £ ¥` and thousands
separators and converts accounting parentheses; the source's quality loop
only removes `$` and `,` and never converts parentheses (that richer
treatment happens later, in `_parse_amounts`). -/

/-- Modelled from the claim's words, for refinement comparison: the amount is
invalid when, after stripping the currency symbols `$ € £ ¥` and thousands
separators and converting accounting parentheses to a leading minus sign, the
remainder does not parse as a number. -/
def specAmountInvalid (v : Option Str) : Bool :=
  match v with
  | none => true
  | some s => (pyFloat (parenNeg (stripSymbols s))).isNone

/-- A structurally valid one-row frame whose amount cell is `"(50.00)"`. -/
def c2Frame : DataFrame :=
  ⟨["Date".toList, "Description".toList, "Amount".toList, "Type".toList],
    [⟨some "2025-01-01".toList, some "x".toList, some "(50.00)".toList, some "Debit".toList, []⟩]⟩

/-- C2 counterexample: on the amount `"(50.00)"` the claim's predicate says
valid (parentheses converted, parses as `-50.00`), but the quality check
counts an amount error — the reported count disagrees with the claim's
predicate on this one-row dataset. -/
theorem amountErrors_claim_false :
    specAmountInvalid (some "(50.00)".toList) = false
    ∧ qualityAmountBad (some "(50.00)".toList) = true
    ∧ (validateDataQuality c2Frame).1.amount_errors = 1
    ∧ c2Frame.rows.countP (fun r => specAmountInvalid r.amount) = 0
    ∧ (validateDataQuality c2Frame).1.amount_errors
        ≠ c2Frame.rows.countP (fun r => specAmountInvalid r.amount) := by
  refine ⟨by decide, by decide, by decide, by decide, by decide⟩

/-- C2 amended: the amount is counted as an `amount_error` exactly when the
cell is missing, or when after removing only the `$` and `,` characters
(no `€ £ ¥` stripping and no parentheses conversion) the remaining string
does not parse as a number. -/
theorem amountErrors_strip_dollar_comma_only (df : DataFrame) :
    (validateDataQuality df).1.amount_errors
      = (df.rows.filter (fun r => qualityAmountBad r.amount)).length
    ∧ qualityAmountBad none = true
    ∧ (∀ s : Str, qualityAmountBad (some s)
        = (pyFloat (s.filter (fun c => decide (¬ (c = '$' ∨ c = ','))))).isNone) :=
  ⟨List.countP_eq_length_filter _ _, rfl, fun _ => rfl⟩

/-! ## C4 — missing required columns block the pipeline -/

theorem contains_eq_true_iff {l : List Str} {a : Str} : l.contains a = true ↔ a ∈ l :=
  List.elem_iff

/-- C4: for every dataset missing at least one required column,
`validate_csv_structure` returns `is_valid = false` with an error naming the
missing columns, the row-level quality check is skipped (`data_quality` is
left empty), and the caller raises a validation error carrying the
semicolon-joined error strings without invoking cleaning; moreover, for any
dataset at all, validity is exactly the presence of all required columns, so
unknown extra columns can only ever produce a warning. -/
theorem validateCsvStructure_missing_columns (df : DataFrame)
    (h : ∃ c ∈ requiredColumns, c ∉ df.columns) :
    (validateCsvStructure df).is_valid = false
    ∧ (validateCsvStructure df).errors
      = ["Missing required columns: ".toList
          ++ pyStrListRepr (requiredColumns.filter (fun c => ¬ df.columns.contains c))]
    ∧ (validateCsvStructure df).warnings
      = (if (df.columns.filter
            (fun c => ¬ (requiredColumns.contains c ∨ optionalColumns.contains c))).isEmpty
          then []
          else ["Unknown columns found: ".toList
            ++ pyStrListRepr (df.columns.filter
                (fun c => ¬ (requiredColumns.contains c ∨ optionalColumns.contains c)))])
    ∧ (validateCsvStructure df).data_quality = none
    ∧ loadTransactions df
      = Except.error ("CSV validation failed: ".toList
          ++ ("Missing required columns: ".toList
            ++ pyStrListRepr (requiredColumns.filter (fun c => ¬ df.columns.contains c))))
    ∧ (∀ d2 : DataFrame, (validateCsvStructure d2).is_valid = true
        ↔ requiredColumns.filter (fun c => ¬ d2.columns.contains c) = []) := by
  obtain ⟨c, hc, hnc⟩ := h
  have hmem : c ∈ requiredColumns.filter (fun c => ¬ df.columns.contains c) := by
    refine List.mem_filter.2 ⟨hc, ?_⟩
    simp only [decide_eq_true_eq]
    intro hcon
    exact hnc (contains_eq_true_iff.1 hcon)
  have hne : requiredColumns.filter (fun c => ¬ df.columns.contains c) ≠ [] :=
    List.ne_nil_of_mem hmem
  have hemp : (requiredColumns.filter (fun c => ¬ df.columns.contains c)).isEmpty = false :=
    List.isEmpty_eq_false.mpr hne
  have hvr : validateCsvStructure df
      = ⟨false,
          ["Missing required columns: ".toList
            ++ pyStrListRepr (requiredColumns.filter (fun c => ¬ df.columns.contains c))],
          if (df.columns.filter
              (fun c => ¬ (requiredColumns.contains c ∨ optionalColumns.contains c))).isEmpty
            then []
            else ["Unknown columns found: ".toList
              ++ pyStrListRepr (df.columns.filter
                  (fun c => ¬ (requiredColumns.contains c ∨ optionalColumns.contains c)))],
          none⟩ := by
    rw [validateCsvStructure]
    simp only [hemp, Bool.false_eq_true, if_false]
  refine ⟨by rw [hvr], by rw [hvr], by rw [hvr], by rw [hvr], ?_, ?_⟩
  · rw [loadTransactions, hvr]
    simp only [Bool.false_eq_true, if_false]
    rw [List.intercalate]
    simp [List.intersperse]
  · intro d2
    constructor
    · intro hv
      by_contra hne2
      have hemp2 : (requiredColumns.filter (fun c => ¬ d2.columns.contains c)).isEmpty = false :=
        List.isEmpty_eq_false.mpr hne2
      rw [validateCsvStructure] at hv
      simp only [hemp2, Bool.false_eq_true, if_false] at hv
    · intro hnil
      have hemp2 : (requiredColumns.filter (fun c => ¬ d2.columns.contains c)).isEmpty = true := by
        rw [hnil]; rfl
      rw [validateCsvStructure]
      simp only [hemp2, if_true]

/-- Witness for C4 at a concrete frame lacking the `Amount` and `Type`
columns. -/
theorem validateCsvStructure_missing_columns_witness :
    (validateCsvStructure ⟨["Date".toList, "Description".toList], []⟩).is_valid = false
    ∧ loadTransactions ⟨["Date".toList, "Description".toList], []⟩
      = Except.error ("CSV validation failed: ".toList
          ++ ("Missing required columns: ".toList
            ++ pyStrListRepr ["Amount".toList, "Type".toList])) := by
  have h := validateCsvStructure_missing_columns ⟨["Date".toList, "Description".toList], []⟩
    ⟨"Amount".toList, by decide, by decide⟩
  refine ⟨h.1, ?_⟩
  rw [h.2.2.2.2.1]
  refine congrArg Except.error ?_
  decide

/-! ## C9 — the `valid_rows` formula and the type allow-list -/

/-- C9: for every structurally valid dataset, the quality check reports
`valid_rows = total_rows − max(date_errors, amount_errors, type_errors)`,
where `type_errors` counts the rows whose raw type is not case-sensitively
one of the four literal labels `Debit, Credit, debit, credit` (a missing
type also counts). -/
theorem qualityCheck_valid_rows (df : DataFrame)
    (h : ∀ c ∈ requiredColumns, c ∈ df.columns) :
    (validateCsvStructure df).data_quality = some (validateDataQuality df).1
    ∧ (validateDataQuality df).1.valid_rows
      = (validateDataQuality df).1.total_rows
        - max (validateDataQuality df).1.date_errors
            (max (validateDataQuality df).1.amount_errors (validateDataQuality df).1.type_errors)
    ∧ (validateDataQuality df).1.type_errors
      = df.rows.countP (fun r => qualityTypeBad r.rtype)
    ∧ qualityTypeBad none = true
    ∧ (∀ s : Str, (qualityTypeBad (some s) = false
        ↔ (s = "Debit".toList ∨ s = "Credit".toList ∨ s = "debit".toList ∨ s = "credit".toList))) := by
  have hnil : requiredColumns.filter (fun c => ¬ df.columns.contains c) = [] := by
    refine List.filter_eq_nil_iff.2 ?_
    intro c hc
    simp only [decide_eq_true_eq, not_not]
    exact contains_eq_true_iff.2 (h c hc)
  have hemp : (requiredColumns.filter (fun c => ¬ df.columns.contains c)).isEmpty = true := by
    rw [hnil]; rfl
  have hty : df.columns.contains "Type".toList = true :=
    contains_eq_true_iff.2 (h "Type".toList (by decide))
  refine ⟨?_, rfl, ?_, rfl, ?_⟩
  · rw [validateCsvStructure]
    simp only [hemp, if_true]
  · show (if df.columns.contains "Type".toList = true
        then df.rows.countP (fun r => qualityTypeBad r.rtype) else 0) = _
    rw [if_pos hty]
  · intro s
    simp only [qualityTypeBad, decide_eq_false_iff_not, not_not, contains_eq_true_iff]
    simp [validTypes]

/-- Witness for C9 at the concrete structurally valid one-row frame. -/
theorem qualityCheck_valid_rows_witness :
    (validateCsvStructure c2Frame).data_quality = some (validateDataQuality c2Frame).1 :=
  (qualityCheck_valid_rows c2Frame (by decide)).1

/-! ## C3 — invariants of `clean_and_validate_data` -/

theorem mem_dedupFirst {α : Type} [DecidableEq α] {a : α} {l : List α}
    (h : a ∈ dedupFirst l) : a ∈ l := by
  induction l with
  | nil => simp [dedupFirst] at h
  | cons x xs ih =>
    rw [dedupFirst] at h
    rcases List.mem_cons.1 h with h | h
    · exact h ▸ List.mem_cons_self x xs
    · exact List.mem_cons_of_mem x (ih (List.mem_filter.1 h).1)

theorem nodup_dedupFirst {α : Type} [DecidableEq α] (l : List α) : (dedupFirst l).Nodup := by
  induction l with
  | nil => exact List.nodup_nil
  | cons x xs ih =>
    rw [dedupFirst]
    refine List.Nodup.cons ?_ (List.Nodup.filter _ ih)
    intro hx
    have := (List.mem_filter.1 hx).2
    simp at this

theorem standardizeType_canonical (v : Option Str) :
    standardizeType v = "Debit".toList ∨ standardizeType v = "Credit".toList
      ∨ standardizeType v = "Unknown".toList := by
  cases v with
  | none => exact Or.inr (Or.inr rfl)
  | some s =>
    simp only [standardizeType]
    by_cases h1 : debitSynonyms.contains (lowerStr (trimChars s)) = true
    · rw [if_pos h1]
      exact Or.inl rfl
    · rw [if_neg h1]
      by_cases h2 : creditSynonyms.contains (lowerStr (trimChars s)) = true
      · rw [if_pos h2]
        exact Or.inr (Or.inl rfl)
      · rw [if_neg h2]
        exact Or.inr (Or.inr rfl)

/-- C3: for every structurally valid dataset, cleaning applies the three
parsers to every row, then drops rows with a missing cleaned date or amount,
then removes fully duplicate rows, in that sequence; in the result every row
has a present date and amount, no two rows are identical, and every type is
one of `Debit`, `Credit`, `Unknown` (a missing raw type becomes `Unknown`
rather than causing the row to be dropped). -/
theorem cleanAndValidateData_invariants (df : DataFrame)
    (_h : ∀ c ∈ requiredColumns, c ∈ df.columns) :
    cleanAndValidateData df.rows
      = dedupFirst ((df.rows.map cleanRow).filter (fun r => r.date.isSome && r.amount.isSome))
    ∧ (∀ r ∈ cleanAndValidateData df.rows, r.date ≠ none ∧ r.amount ≠ none)
    ∧ (cleanAndValidateData df.rows).Nodup
    ∧ (∀ r ∈ cleanAndValidateData df.rows,
        r.rtype = "Debit".toList ∨ r.rtype = "Credit".toList ∨ r.rtype = "Unknown".toList)
    ∧ (∀ raw : RawRow, raw.rtype = none → (cleanRow raw).rtype = "Unknown".toList) := by
  refine ⟨rfl, ?_, nodup_dedupFirst _, ?_, ?_⟩
  · intro r hr
    have hf := mem_dedupFirst hr
    have hpred := (List.mem_filter.1 hf).2
    simp only [Bool.and_eq_true] at hpred
    obtain ⟨hd, ha⟩ := hpred
    exact ⟨Option.ne_none_iff_isSome.2 hd, Option.ne_none_iff_isSome.2 ha⟩
  · intro r hr
    have hf := (List.mem_filter.1 (mem_dedupFirst hr)).1
    obtain ⟨raw, _, rfl⟩ := List.mem_map.1 hf
    exact standardizeType_canonical raw.rtype
  · intro raw hraw
    show standardizeType raw.rtype = _
    rw [hraw, standardizeType]

/-- Witness for C3 at a concrete structurally valid frame: the surviving row
is unique, has a present date and amount, and a canonical type. -/
theorem cleanAndValidateData_invariants_witness :
    (cleanAndValidateData c2Frame.rows).Nodup :=
  (cleanAndValidateData_invariants c2Frame (by decide)).2.2.1

/-! ## C7 — categories sorted descending by total, stably -/

/-- The ordering the emitted category list must satisfy: totals weakly
decrease, and equal totals keep the fixed enumeration order. -/
def descStable (p q : Category × CatEntry) : Prop :=
  q.2.total ≤ p.2.total ∧ (p.2.total = q.2.total → catIdx p.1 < catIdx q.1)

theorem insDesc_mem {x z : Category × CatEntry} {l : List (Category × CatEntry)}
    (h : z ∈ insDesc x l) : z = x ∨ z ∈ l := by
  induction l with
  | nil => simp only [insDesc, List.mem_singleton] at h; exact Or.inl h
  | cons y ys ih =>
    rw [insDesc] at h
    by_cases hc : y.2.total ≤ x.2.total
    · rw [if_pos hc] at h
      rcases List.mem_cons.1 h with h | h
      · exact Or.inl h
      · exact Or.inr h
    · rw [if_neg hc] at h
      rcases List.mem_cons.1 h with h | h
      · exact Or.inr (h ▸ List.mem_cons_self y ys)
      · rcases ih h with h | h
        · exact Or.inl h
        · exact Or.inr (List.mem_cons_of_mem y h)

theorem insDesc_pairwise {x : Category × CatEntry} {l : List (Category × CatEntry)}
    (hl : l.Pairwise descStable) (hx : ∀ y ∈ l, catIdx x.1 < catIdx y.1) :
    (insDesc x l).Pairwise descStable := by
  induction l with
  | nil => exact List.pairwise_singleton _ x
  | cons y ys ih =>
    rw [insDesc]
    rcases List.pairwise_cons.1 hl with ⟨hy, hys⟩
    by_cases hc : y.2.total ≤ x.2.total
    · rw [if_pos hc]
      refine List.pairwise_cons.2 ⟨?_, hl⟩
      intro z hz
      refine ⟨?_, fun _ => hx z hz⟩
      rcases List.mem_cons.1 hz with h | h
      · exact h ▸ hc
      · exact le_trans (hy z h).1 hc
    · rw [if_neg hc]
      push_neg at hc
      refine List.pairwise_cons.2 ⟨?_, ?_⟩
      · intro z hz
        rcases insDesc_mem hz with h | h
        · subst h
          exact ⟨le_of_lt hc, fun heq => absurd heq (ne_of_gt hc)⟩
        · exact hy z h
      · exact ih hys (fun z hz => hx z (List.mem_cons_of_mem y hz))

theorem insDesc_perm (x : Category × CatEntry) (l : List (Category × CatEntry)) :
    List.Perm (insDesc x l) (x :: l) := by
  induction l with
  | nil => rfl
  | cons y ys ih =>
    rw [insDesc]
    by_cases hc : y.2.total ≤ x.2.total
    · rw [if_pos hc]
    · rw [if_neg hc]
      exact List.Perm.trans (List.Perm.cons y ih) (List.Perm.swap x y ys)

theorem sortDesc_perm (l : List (Category × CatEntry)) : List.Perm (sortDesc l) l := by
  induction l with
  | nil => rfl
  | cons x xs ih =>
    show List.Perm (insDesc x (sortDesc xs)) (x :: xs)
    exact List.Perm.trans (insDesc_perm x (sortDesc xs)) (List.Perm.cons x ih)

theorem sortDesc_pairwise {l : List (Category × CatEntry)}
    (h : l.Pairwise (fun p q => catIdx p.1 < catIdx q.1)) :
    (sortDesc l).Pairwise descStable := by
  induction l with
  | nil => exact List.Pairwise.nil
  | cons x xs ih =>
    show (insDesc x (sortDesc xs)).Pairwise descStable
    rcases List.pairwise_cons.1 h with ⟨hx, hxs⟩
    refine insDesc_pairwise (ih hxs) ?_
    intro y hy
    exact hx y ((sortDesc_perm xs).mem_iff.1 hy)

theorem entryFor_key {rows : List TxRow} {c : Category} {p : Category × CatEntry}
    (h : entryFor rows c = some p) : p.1 = c := by
  rw [entryFor] at h
  by_cases he : (catRows rows c).isEmpty
  · rw [if_pos he] at h
    exact absurd h (by simp)
  · rw [if_neg he] at h
    cases h
    rfl

theorem entriesPre_keys_pairwise (rows : List TxRow) :
    (entriesPre rows).Pairwise (fun p q => catIdx p.1 < catIdx q.1) := by
  rw [entriesPre]
  refine List.pairwise_filterMap.2 ?_
  have henum : catEnum.Pairwise (fun a b => catIdx a < catIdx b) := by decide
  refine henum.imp_of_mem ?_
  intro a b _ _ hab p hp q hq
  rw [entryFor_key (Option.mem_def.1 hp), entryFor_key (Option.mem_def.1 hq)]
  exact hab

theorem entriesWithPct_keys_pairwise (rows : List TxRow) :
    (entriesWithPct rows).Pairwise (fun p q => catIdx p.1 < catIdx q.1) := by
  rw [entriesWithPct, applyPct]
  by_cases hts : 0 < totalSpending (entriesPre rows)
  · rw [if_pos hts]
    exact List.Pairwise.map _ (fun p q h => h) (entriesPre_keys_pairwise rows)
  · rw [if_neg hts]
    exact entriesPre_keys_pairwise rows

/-- C7: for every set of expense rows, the emitted category mapping is
ordered descending by `total`, and whenever two categories have exactly equal
totals they appear in the fixed enumeration order (the sort is stable with
respect to that order). -/
theorem categorizeTransactions_sorted_stable (rows : List TxRow) :
    (categorizeTransactions rows).Pairwise
      (fun p q => q.2.total ≤ p.2.total ∧ (p.2.total = q.2.total → catIdx p.1 < catIdx q.1)) := by
  rw [categorizeTransactions]
  by_cases he : rows.isEmpty
  · rw [if_pos he]
    exact List.Pairwise.nil
  · rw [if_neg he]
    exact sortDesc_pairwise (entriesWithPct_keys_pairwise rows)

/-! ## C6 — per-category totals, counts, averages and percentages -/

theorem sum_neg_of_mem_neg {l : List ℚ} (hne : l ≠ []) (h : ∀ x ∈ l, x < 0) : l.sum < 0 := by
  induction l with
  | nil => exact absurd rfl hne
  | cons x t ih =>
    rw [List.sum_cons]
    rcases eq_or_ne t [] with rfl | htne
    · simpa using h x (List.mem_cons_self x [])
    · have hx := h x (List.mem_cons_self x t)
      have ht := ih htne (fun y hy => h y (List.mem_cons_of_mem x hy))
      linarith

theorem sum_map_div_mul (L : List ℚ) (a b : ℚ) :
    ((L.map (fun t => t / a * b)).sum) = L.sum / a * b := by
  induction L with
  | nil => simp
  | cons x t ih =>
    simp only [List.map_cons, List.sum_cons, ih]
    ring

theorem mem_catEnum (c : Category) : c ∈ catEnum := by
  cases c <;> decide

theorem mem_entriesPre {rows : List TxRow} {p : Category × CatEntry}
    (hp : p ∈ entriesPre rows) :
    catRows rows p.1 ≠ []
    ∧ p.2.total = |(((catRows rows p.1).map (fun r => r.amount)).sum)|
    ∧ p.2.count = (catRows rows p.1).length
    ∧ p.2.average = (if 0 < p.2.count then p.2.total / p.2.count else 0)
    ∧ p.2.percentage = 0 := by
  rw [entriesPre] at hp
  obtain ⟨a, _, ha⟩ := List.mem_filterMap.1 hp
  have hkey : p.1 = a := entryFor_key ha
  subst hkey
  rw [entryFor] at ha
  by_cases he : (catRows rows p.1).isEmpty
  · rw [if_pos he] at ha
    exact absurd ha (by simp)
  · rw [if_neg he] at ha
    have hne : catRows rows p.1 ≠ [] := by
      intro hnil
      rw [hnil] at he
      exact he rfl
    have h2 : p.2 = (⟨|(((catRows rows p.1).map (fun r => r.amount)).sum)|,
        (catRows rows p.1).length,
        if 0 < (catRows rows p.1).length
          then |(((catRows rows p.1).map (fun r => r.amount)).sum)| / (catRows rows p.1).length
          else 0,
        0⟩ : CatEntry) := (congrArg Prod.snd (Option.some.inj ha)).symm
    refine ⟨hne, ?_, ?_, ?_, ?_⟩ <;> rw [h2]

theorem entriesPre_total_nonneg {rows : List TxRow} {p : Category × CatEntry}
    (hp : p ∈ entriesPre rows) : 0 ≤ p.2.total := by
  rw [(mem_entriesPre hp).2.1]
  exact abs_nonneg _

theorem totalSpending_pos (rows : List TxRow) (hne : rows ≠ [])
    (hneg : ∀ r ∈ rows, r.amount < 0) : 0 < totalSpending (entriesPre rows) := by
  obtain ⟨r₀, hr₀mem⟩ := List.exists_mem_of_ne_nil rows hne
  have hr₀ : r₀ ∈ catRows rows (assignCategory r₀.description) :=
    List.mem_filter.2 ⟨hr₀mem, by simp⟩
  have hcrne : (catRows rows (assignCategory r₀.description)).isEmpty = false :=
    List.isEmpty_eq_false.mpr (List.ne_nil_of_mem hr₀)
  have hmem : (assignCategory r₀.description,
      (⟨|(((catRows rows (assignCategory r₀.description)).map (fun r => r.amount)).sum)|,
        (catRows rows (assignCategory r₀.description)).length,
        if 0 < (catRows rows (assignCategory r₀.description)).length
          then |(((catRows rows (assignCategory r₀.description)).map (fun r => r.amount)).sum)|
            / (catRows rows (assignCategory r₀.description)).length
          else 0,
        0⟩ : CatEntry)) ∈ entriesPre rows := by
    rw [entriesPre]
    refine List.mem_filterMap.2 ⟨assignCategory r₀.description, mem_catEnum _, ?_⟩
    rw [entryFor, if_neg (by rw [hcrne]; exact Bool.false_ne_true)]
  have hsumneg : (((catRows rows (assignCategory r₀.description)).map (fun r => r.amount)).sum) < 0 := by
    refine sum_neg_of_mem_neg ?_ ?_
    · simp only [ne_eq, List.map_eq_nil_iff]
      exact List.ne_nil_of_mem hr₀
    · intro x hx
      obtain ⟨r, hr, rfl⟩ := List.mem_map.1 hx
      exact hneg r (List.mem_filter.1 hr).1
  have htpos : (0 : ℚ)
      < |(((catRows rows (assignCategory r₀.description)).map (fun r => r.amount)).sum)| :=
    abs_pos.2 (ne_of_lt hsumneg)
  have hle : |(((catRows rows (assignCategory r₀.description)).map (fun r => r.amount)).sum)|
      ≤ totalSpending (entriesPre rows) := by
    rw [totalSpending]
    refine List.single_le_sum ?_ _ ?_
    · intro x hx
      obtain ⟨q, hq, rfl⟩ := List.mem_map.1 hx
      exact entriesPre_total_nonneg hq
    · exact List.mem_map.2 ⟨_, hmem, rfl⟩
  linarith

theorem applyPct_map_total (ts : ℚ) (l : List (Category × CatEntry)) :
    ((applyPct ts l).map (fun p => p.2.total)) = (l.map (fun p => p.2.total)) := by
  rw [applyPct]
  by_cases h : 0 < ts
  · rw [if_pos h, List.map_map]
    rfl
  · rw [if_neg h]

/-- The concrete two-expense dataset of the claim: a `-10` groceries-keyword
row and a `-30` dining-keyword row. -/
def exampleExpenses : List TxRow :=
  [⟨some "grocery".toList, -10⟩, ⟨some "restaurant".toList, -30⟩]

/-- C6: for every nonempty set of expense rows, each emitted category entry
has `total` equal to the absolute sum of its rows' amounts, `count` equal to
its row count, `average = total / count`, and
`percentage = 100 × total / Σ(all category totals)`, so percentages sum to
exactly 100; in particular, expenses of −10 (a groceries keyword) and −30
(a dining keyword) yield `total_spent = 40`, groceries percentage 25 and
dining percentage 75. -/
theorem categorizeTransactions_entry_stats (rows : List TxRow)
    (hne : rows ≠ []) (hneg : ∀ r ∈ rows, r.amount < 0) :
    (∀ p ∈ categorizeTransactions rows,
        p.2.total = |(((catRows rows p.1).map (fun r => r.amount)).sum)|
        ∧ p.2.count = (catRows rows p.1).length
        ∧ 0 < p.2.count
        ∧ p.2.average = p.2.total / p.2.count
        ∧ p.2.percentage
          = 100 * p.2.total / (((categorizeTransactions rows).map (fun x => x.2.total)).sum))
    ∧ (((categorizeTransactions rows).map (fun x => x.2.percentage)).sum) = 100
    ∧ categorizeTransactions exampleExpenses
      = [(Category.Dining, ⟨30, 1, 30, 75⟩), (Category.Groceries, ⟨10, 1, 10, 25⟩)]
    ∧ (calculateSpendingBreakdown exampleExpenses).summary.total_spent = 40 := by
  have hts : 0 < totalSpending (entriesPre rows) := totalSpending_pos rows hne hneg
  have hemp : rows.isEmpty = false := List.isEmpty_eq_false.mpr hne
  have hcat : categorizeTransactions rows = sortDesc (entriesWithPct rows) := by
    rw [categorizeTransactions, if_neg (by rw [hemp]; exact Bool.false_ne_true)]
  have hwp : entriesWithPct rows = (entriesPre rows).map
      (fun p => (p.1, (⟨p.2.total, p.2.count, p.2.average,
        p.2.total / totalSpending (entriesPre rows) * 100⟩ : CatEntry))) := by
    rw [entriesWithPct, applyPct, if_pos hts]
  have hT : (((categorizeTransactions rows).map (fun x => x.2.total)).sum)
      = totalSpending (entriesPre rows) := by
    rw [hcat, ((sortDesc_perm (entriesWithPct rows)).map (fun x => x.2.total)).sum_eq,
      hwp, List.map_map, totalSpending]
    rfl
  refine ⟨?_, ?_, by decide, by decide⟩
  · intro p hp
    rw [hcat] at hp
    have hp2 : p ∈ entriesWithPct rows := (sortDesc_perm _).mem_iff.1 hp
    rw [hwp] at hp2
    obtain ⟨q, hq, rfl⟩ := List.mem_map.1 hp2
    obtain ⟨hqne, hqt, hqc, hqa, _⟩ := mem_entriesPre hq
    have hcount : (0 : ℕ) < q.2.count := by
      rw [hqc]
      exact List.length_pos.2 hqne
    refine ⟨hqt, hqc, hcount, ?_, ?_⟩
    · show q.2.average = q.2.total / q.2.count
      rw [hqa, if_pos hcount]
    · show q.2.total / totalSpending (entriesPre rows) * 100 = _
      rw [hT]
      ring
  · rw [hcat, ((sortDesc_perm (entriesWithPct rows)).map (fun x => x.2.percentage)).sum_eq,
      hwp, List.map_map]
    have hfun : ((entriesPre rows).map
        ((fun x : Category × CatEntry => x.2.percentage) ∘
          (fun p : Category × CatEntry => (p.1, (⟨p.2.total, p.2.count, p.2.average,
            p.2.total / totalSpending (entriesPre rows) * 100⟩ : CatEntry)))))
        = (((entriesPre rows).map (fun p => p.2.total)).map
            (fun t => t / totalSpending (entriesPre rows) * 100)) := by
      rw [List.map_map]
      rfl
    rw [hfun, sum_map_div_mul, ← totalSpending, div_self (ne_of_gt hts), one_mul]

/-- Witness for C6 at the concrete two-expense dataset. -/
theorem categorizeTransactions_entry_stats_witness :
    (((categorizeTransactions exampleExpenses).map (fun x => x.2.percentage)).sum) = 100 :=
  (categorizeTransactions_entry_stats exampleExpenses (by decide) (by decide)).2.1

/-! ## C8 — `AmountParser` round-trips on its own output

The development below proves that re-parsing the rendered string of a parsed
amount yields the same rational: every parsed value has a denominator
dividing a power of ten, `floatStr` renders its exact decimal expansion, and
the cleaning steps are the identity on such a rendering. -/

theorem digVal_digitChar {d : ℕ} (h : d < 10) : digVal (digitChar d) = d := by
  interval_cases d <;> decide

theorem natStrAux_val (fuel : ℕ) :
    ∀ n a : ℕ, n ≤ fuel →
      (natStrAux fuel n).foldl (fun x c => 10 * x + digVal c) a
        = a * 10 ^ (natStrAux fuel n).length + n := by
  induction fuel with
  | zero =>
    intro n a hn
    interval_cases n
    simp [natStrAux]
  | succ fuel ih =>
    intro n a hn
    by_cases hz : n = 0
    · simp [natStrAux, hz]
    · rw [natStrAux, if_neg hz, List.foldl_append, List.length_append]
      have hfuel : n / 10 ≤ fuel := by
        have := Nat.div_lt_self (Nat.pos_of_ne_zero hz) (by norm_num : 1 < 10)
        omega
      rw [ih (n / 10) a hfuel]
      simp only [List.foldl_cons, List.foldl_nil, List.length_singleton]
      rw [digVal_digitChar (Nat.mod_lt _ (by norm_num))]
      have hmod := Nat.div_add_mod n 10
      rw [pow_succ]
      ring_nf
      omega

theorem digitsVal_natStr (n : ℕ) : digitsVal (natStr n) = n := by
  rw [natStr]
  by_cases hz : n = 0
  · rw [if_pos hz, hz]
    decide
  · rw [if_neg hz, digitsVal, natStrAux_val (n + 1) n 0 (Nat.le_succ n)]
    ring

theorem natStrAux_length_le (fuel : ℕ) :
    ∀ n k : ℕ, n ≤ fuel → n < 10 ^ k → (natStrAux fuel n).length ≤ k := by
  induction fuel with
  | zero =>
    intro n k _ _
    simp [natStrAux]
  | succ fuel ih =>
    intro n k hn hk
    by_cases hz : n = 0
    · simp [natStrAux, hz]
    · rw [natStrAux, if_neg hz, List.length_append]
      cases k with
      | zero =>
        exfalso
        rw [pow_zero] at hk
        omega
      | succ k =>
        have h1 : n / 10 ≤ fuel := by
          have := Nat.div_lt_self (Nat.pos_of_ne_zero hz) (by norm_num : 1 < 10)
          omega
        have h2 : n / 10 < 10 ^ k := by
          rw [Nat.div_lt_iff_lt_mul (by norm_num : 0 < 10)]
          rw [pow_succ] at hk
          exact hk
        have := ih (n / 10) k h1 h2
        simp only [List.length_singleton]
        omega

theorem natStr_length_le {n k : ℕ} (hk : 1 ≤ k) (h : n < 10 ^ k) :
    (natStr n).length ≤ k := by
  rw [natStr]
  by_cases hz : n = 0
  · rw [if_pos hz]
    simpa using hk
  · rw [if_neg hz]
    exact natStrAux_length_le (n + 1) n k (Nat.le_succ n) h

theorem natStr_ne_nil (n : ℕ) : natStr n ≠ [] := by
  rw [natStr]
  by_cases hz : n = 0
  · rw [if_pos hz]
    exact List.cons_ne_nil _ _
  · rw [if_neg hz, natStrAux, if_neg hz]
    intro hcon
    have := congrArg List.length hcon
    simp at this

theorem foldl_zero_replicate (j : ℕ) :
    List.foldl (fun x c => 10 * x + digVal c) 0 (List.replicate j '0') = 0 := by
  induction j with
  | zero => rfl
  | succ j ih => simpa [List.replicate_succ, digVal] using ih

theorem digitsVal_padZeros (k : ℕ) (l : Str) : digitsVal (padZeros k l) = digitsVal l := by
  rw [padZeros, digitsVal, digitsVal, List.foldl_append, foldl_zero_replicate]

theorem padZeros_length {k : ℕ} {l : Str} (h : l.length ≤ k) : (padZeros k l).length = k := by
  rw [padZeros, List.length_append, List.length_replicate]
  omega

theorem padZeros_digits {k : ℕ} {l : Str} (h : ∀ c ∈ l, c.isDigit = true) :
    ∀ c ∈ padZeros k l, c.isDigit = true := by
  intro c hc
  rcases padZeros_mem hc with rfl | hc
  · decide
  · exact h c hc

theorem takeWhile_digits_dot (l₁ l₂ : Str) (h : ∀ c ∈ l₁, c.isDigit = true) :
    (l₁ ++ '.' :: l₂).takeWhile Char.isDigit = l₁
    ∧ (l₁ ++ '.' :: l₂).dropWhile Char.isDigit = '.' :: l₂ := by
  induction l₁ with
  | nil =>
    have hdot : '.'.isDigit = false := by decide
    constructor
    · rw [List.nil_append, List.takeWhile_cons, hdot]
      simp
    · rw [List.nil_append, List.dropWhile_cons, hdot]
      simp
  | cons c cs ih =>
    have hc : c.isDigit = true := h c (List.mem_cons_self c cs)
    obtain ⟨iht, ihd⟩ := ih (fun x hx => h x (List.mem_cons_of_mem c hx))
    constructor
    · rw [List.cons_append, List.takeWhile_cons, hc]
      simp only [if_true, iht]
    · rw [List.cons_append, List.dropWhile_cons, hc]
      simp only [if_true, ihd]

theorem parseDigitsDot_render (a : ℕ) (fp : Str) (hfp : ∀ c ∈ fp, c.isDigit = true) :
    parseDigitsDot (natStr a ++ '.' :: fp)
      = some ((a : ℚ) + (digitsVal fp : ℚ) / 10 ^ fp.length) := by
  obtain ⟨ht, hd⟩ := takeWhile_digits_dot (natStr a) fp (fun c hc => natStr_digits hc)
  rw [parseDigitsDot]
  simp only [ht, hd]
  rw [if_pos ⟨trivial, List.all_eq_true.2 (fun c hc => hfp c hc),
    Or.inl (List.isEmpty_eq_false.mpr (natStr_ne_nil a))⟩]
  rw [digitsVal_natStr]

theorem floatStr_chars {q : ℚ} {c : Char} (h : c ∈ floatStr q) :
    c = '-' ∨ c = '.' ∨ c.isDigit = true := by
  rw [floatStr] at h
  simp only [List.mem_append, List.mem_cons] at h
  rcases h with (h | h) | h | h
  · by_cases hq : q < 0
    · rw [if_pos hq] at h
      exact Or.inl (List.mem_singleton.1 h)
    · rw [if_neg hq] at h
      exact absurd h (List.not_mem_nil c)
  · exact Or.inr (Or.inr (natStr_digits h))
  · exact Or.inr (Or.inl h)
  · by_cases hk : decExp q.den = 0
    · rw [if_pos hk] at h
      rw [List.mem_singleton.1 h]
      exact Or.inr (Or.inr (by decide))
    · rw [if_neg hk] at h
      exact Or.inr (Or.inr (padZeros_digits (fun x hx => natStr_digits hx) c h))

theorem digit_not_whitespace {c : Char} (h : c.isDigit = true) : c.isWhitespace = false := by
  cases hw : c.isWhitespace
  · rfl
  · exfalso
    simp only [Char.isWhitespace, Bool.or_eq_true, decide_eq_true_eq] at hw
    rcases hw with ((rfl | rfl) | rfl) | rfl <;> exact absurd h (by decide)

theorem floatStr_no_whitespace {q : ℚ} {c : Char} (h : c ∈ floatStr q) :
    c.isWhitespace = false := by
  rcases floatStr_chars h with rfl | rfl | h
  · decide
  · decide
  · exact digit_not_whitespace h

theorem dropWhile_eq_self_of_none {p : Char → Bool} {l : Str}
    (h : ∀ c ∈ l, p c = false) : l.dropWhile p = l := by
  cases l with
  | nil => rfl
  | cons c cs =>
    rw [List.dropWhile_cons, h c (List.mem_cons_self c cs)]
    simp

theorem trimChars_eq_self {l : Str} (h : ∀ c ∈ l, c.isWhitespace = false) :
    trimChars l = l := by
  rw [trimChars, trimLeft, dropWhile_eq_self_of_none h, dropWhile_eq_self_of_none
    (fun c hc => h c (List.mem_reverse.1 hc)), List.reverse_reverse]

theorem stripSymbols_floatStr (q : ℚ) : stripSymbols (floatStr q) = floatStr q := by
  rw [stripSymbols]
  refine List.filter_eq_self.2 ?_
  intro c hc
  simp only [decide_eq_true_eq]
  intro hor
  rcases floatStr_chars hc with rfl | rfl | hd
  · rcases hor with h | h | h | h | h <;> exact absurd h (by decide)
  · rcases hor with h | h | h | h | h <;> exact absurd h (by decide)
  · rcases hor with rfl | rfl | rfl | rfl | rfl <;> exact absurd hd (by decide)

theorem parenNeg_floatStr (q : ℚ) : parenNeg (floatStr q) = floatStr q := by
  rw [parenNeg]
  refine if_neg ?_
  rintro ⟨h1, -⟩
  have hmem : '(' ∈ floatStr q := by
    cases hfs : floatStr q with
    | nil => rw [hfs] at h1; exact absurd h1 (by simp)
    | cons c cs =>
      rw [hfs] at h1
      simp only [List.head?_cons, Option.some_inj] at h1
      rw [h1]
      exact List.mem_cons_self _ _
  rcases floatStr_chars hmem with h | h | h
  · exact absurd h (by decide)
  · exact absurd h (by decide)
  · exact absurd h (by decide)

theorem fcAux_pow_dvd (fuel : ℕ) : ∀ p n : ℕ, p ^ fcAux fuel p n ∣ n := by
  induction fuel with
  | zero =>
    intro p n
    simp [fcAux]
  | succ fuel ih =>
    intro p n
    rw [fcAux]
    by_cases hc : 2 ≤ p ∧ 2 ≤ n ∧ p ∣ n
    · rw [if_pos hc, pow_succ, mul_comm (p ^ fcAux fuel p (n / p)) p]
      calc p * p ^ fcAux fuel p (n / p) ∣ p * (n / p) :=
            mul_dvd_mul_left p (ih p (n / p))
        _ = n := Nat.mul_div_cancel' hc.2.2
    · rw [if_neg hc]
      simp

theorem fcAux_not_dvd (fuel : ℕ) :
    ∀ p n : ℕ, 2 ≤ p → 1 ≤ n → n ≤ fuel → ¬ p ∣ n / p ^ fcAux fuel p n := by
  induction fuel with
  | zero =>
    intro p n _ h1 h2
    omega
  | succ fuel ih =>
    intro p n hp h1 hle
    rw [fcAux]
    by_cases hc : 2 ≤ p ∧ 2 ≤ n ∧ p ∣ n
    · rw [if_pos hc, pow_succ, mul_comm (p ^ fcAux fuel p (n / p)) p,
        ← Nat.div_div_eq_div_mul]
      refine ih p (n / p) hp ?_ ?_
      · have hpn : p ≤ n := Nat.le_of_dvd (by omega) hc.2.2
        exact Nat.one_le_div_iff (by omega) |>.2 hpn
      · have := Nat.div_lt_self (by omega : 0 < n) (by omega : 1 < p)
        omega
    · rw [if_neg hc, pow_zero, Nat.div_one]
      intro hdvd
      have hpn : p ≤ n := Nat.le_of_dvd (by omega) hdvd
      exact hc ⟨hp, by omega, hdvd⟩

theorem den_dvd_pow_decExp {n K : ℕ} (hn : 0 < n) (h : n ∣ 10 ^ K) :
    n ∣ 10 ^ decExp n := by
  have ha2 : 2 ^ fc 2 n ∣ n := fcAux_pow_dvd n 2 n
  have hm : 2 ^ fc 2 n * (n / 2 ^ fc 2 n) = n := Nat.mul_div_cancel' ha2
  have hm1 : 0 < n / 2 ^ fc 2 n :=
    Nat.div_pos (Nat.le_of_dvd hn ha2) (pow_pos (by omega) _)
  have h2m : ¬ 2 ∣ n / 2 ^ fc 2 n := fcAux_not_dvd n 2 n (by omega) hn (le_refl n)
  have hb5 : 5 ^ fc 5 (n / 2 ^ fc 2 n) ∣ n / 2 ^ fc 2 n := fcAux_pow_dvd _ 5 _
  have hr : 5 ^ fc 5 (n / 2 ^ fc 2 n) * (n / 2 ^ fc 2 n / 5 ^ fc 5 (n / 2 ^ fc 2 n))
      = n / 2 ^ fc 2 n := Nat.mul_div_cancel' hb5
  have hr1 : 0 < n / 2 ^ fc 2 n / 5 ^ fc 5 (n / 2 ^ fc 2 n) :=
    Nat.div_pos (Nat.le_of_dvd hm1 hb5) (pow_pos (by omega) _)
  have h5r : ¬ 5 ∣ n / 2 ^ fc 2 n / 5 ^ fc 5 (n / 2 ^ fc 2 n) :=
    fcAux_not_dvd _ 5 _ (by omega) hm1 (le_refl _)
  set r := n / 2 ^ fc 2 n / 5 ^ fc 5 (n / 2 ^ fc 2 n) with hrdef
  have hrm : r ∣ n / 2 ^ fc 2 n := Dvd.intro_left _ hr
  have h2r : ¬ 2 ∣ r := fun hd => h2m (hd.trans hrm)
  have hrn : r ∣ n := hrm.trans (Dvd.intro_left _ hm)
  have hr10 : r ∣ 10 ^ K := hrn.trans h
  have cop2 : Nat.Coprime 2 r := (Nat.Prime.coprime_iff_not_dvd Nat.prime_two).2 h2r
  have cop5 : Nat.Coprime 5 r :=
    (Nat.Prime.coprime_iff_not_dvd (by norm_num : Nat.Prime 5)).2 h5r
  have cop10 : Nat.Coprime r 10 := by
    have h10 : (10 : ℕ) = 2 * 5 := by norm_num
    rw [h10]
    exact Nat.Coprime.mul_right cop2.symm cop5.symm
  have hr_one : r = 1 := (cop10.pow_right K).eq_one_of_dvd hr10
  have hn52 : n = 2 ^ fc 2 n * 5 ^ fc 5 (n / 2 ^ fc 2 n) := by
    conv_lhs => rw [← hm, ← hr, hr_one, mul_one]
  have hdvd : 2 ^ fc 2 n * 5 ^ fc 5 (n / 2 ^ fc 2 n)
      ∣ 10 ^ max (fc 2 n) (fc 5 (n / 2 ^ fc 2 n)) := by
    have h10 : (10 : ℕ) = 2 * 5 := by norm_num
    rw [h10, mul_pow]
    exact mul_dvd_mul (pow_dvd_pow 2 (le_max_left _ _)) (pow_dvd_pow 5 (le_max_right _ _))
  rw [← hn52] at hdvd
  rw [decExp]
  exact hdvd

theorem den_nat_add_div_pow (a b k : ℕ) :
    ((((a : ℚ) + (b : ℚ) / 10 ^ k).den : ℕ)) ∣ 10 ^ k := by
  have hval : (a : ℚ) + (b : ℚ) / 10 ^ k
      = (((a * 10 ^ k + b : ℕ) : ℤ) : ℚ) / (((10 ^ k : ℕ) : ℤ) : ℚ) := by
    push_cast
    field_simp
  rw [hval, Rat.intCast_div_eq_divInt]
  have hd := Rat.den_dvd ((a * 10 ^ k + b : ℕ) : ℤ) ((10 ^ k : ℕ) : ℤ)
  exact_mod_cast hd

theorem parseDigitsDot_den {l : Str} {q : ℚ} (h : parseDigitsDot l = some q) :
    ∃ K, (q.den : ℕ) ∣ 10 ^ K := by
  rw [parseDigitsDot] at h
  split at h
  · split at h
    · exact absurd h (by simp)
    · refine ⟨0, ?_⟩
      rw [← Option.some.inj h]
      simp
  · split at h
    · rw [← Option.some.inj h]
      exact ⟨_, den_nat_add_div_pow _ _ _⟩
    · exact absurd h (by simp)

theorem pyFloat_den_dvd {l : Str} {q : ℚ} (h : pyFloat l = some q) :
    ∃ K, (q.den : ℕ) ∣ 10 ^ K := by
  rw [pyFloat] at h
  by_cases h1 : (trimChars l).head? = some '-'
  · rw [if_pos h1] at h
    obtain ⟨q0, hq0, hneg⟩ := Option.map_eq_some'.1 h
    obtain ⟨K, hK⟩ := parseDigitsDot_den hq0
    refine ⟨K, ?_⟩
    rw [← hneg, Rat.den_neg_eq_den]
    exact hK
  · rw [if_neg h1] at h
    by_cases h2 : (trimChars l).head? = some '+'
    · rw [if_pos h2] at h
      exact parseDigitsDot_den h
    · rw [if_neg h2] at h
      exact parseDigitsDot_den h

theorem abs_eq_div_of_mul (q : ℚ) (k m : ℕ)
    (hm : m * q.den = q.num.natAbs * 10 ^ k) : |q| = (m : ℚ) / 10 ^ k := by
  have h10 : ((10 : ℚ) ^ k) ≠ 0 := by positivity
  have hden : ((q.den : ℚ)) ≠ 0 := by
    exact_mod_cast q.den_nz
  have hq : |q| = (q.num.natAbs : ℚ) / (q.den : ℚ) := by
    conv_lhs => rw [← Rat.num_div_den q]
    rw [abs_div]
    congr 1
    · rw [Int.cast_natAbs, Int.cast_abs]
    · exact abs_of_pos (a := ((q.den : ℚ))) (by exact_mod_cast q.pos)
  rw [hq, div_eq_div_iff hden h10]
  exact_mod_cast hm.symm

theorem render_body_parse (q : ℚ) (k m : ℕ)
    (hm : m * q.den = q.num.natAbs * 10 ^ k) :
    parseDigitsDot (natStr (m / 10 ^ k) ++ '.' ::
        (if k = 0 then ['0'] else padZeros k (natStr (m % 10 ^ k)))) = some |q| := by
  have habs := abs_eq_div_of_mul q k m hm
  have h10 : ((10 : ℚ) ^ k) ≠ 0 := by positivity
  by_cases hk0 : k = 0
  · rw [if_pos hk0]
    rw [parseDigitsDot_render _ _ (fun c hc => by
      rw [List.mem_singleton.1 hc]; decide)]
    rw [habs, hk0]
    refine congrArg some ?_
    have hdv : digitsVal ['0'] = 0 := by decide
    rw [hdv]
    norm_num
  · rw [if_neg hk0]
    have hlen : (natStr (m % 10 ^ k)).length ≤ k :=
      natStr_length_le (by omega) (Nat.mod_lt _ (pow_pos (by norm_num) k))
    rw [parseDigitsDot_render _ _ (padZeros_digits (fun c hc => natStr_digits hc))]
    rw [digitsVal_padZeros, digitsVal_natStr, padZeros_length hlen, habs]
    refine congrArg some ?_
    rw [eq_div_iff h10, add_mul, div_mul_cancel₀ _ h10]
    have hnat : m / 10 ^ k * 10 ^ k + m % 10 ^ k = m := by
      rw [mul_comm]
      exact Nat.div_add_mod m (10 ^ k)
    exact_mod_cast hnat

theorem floatStr_roundtrip {q : ℚ} {K : ℕ} (hdvd : (q.den : ℕ) ∣ 10 ^ K) :
    pyFloat (floatStr q) = some q := by
  have hk : (q.den : ℕ) ∣ 10 ^ decExp q.den := den_dvd_pow_decExp q.pos hdvd
  have hm : q.num.natAbs * 10 ^ decExp q.den / q.den * q.den
      = q.num.natAbs * 10 ^ decExp q.den :=
    Nat.div_mul_cancel (Dvd.dvd.mul_left hk q.num.natAbs)
  have hbody := render_body_parse q (decExp q.den)
    (q.num.natAbs * 10 ^ decExp q.den / q.den) hm
  have hws : trimChars (floatStr q) = floatStr q :=
    trimChars_eq_self (fun c hc => floatStr_no_whitespace hc)
  rw [pyFloat, hws]
  by_cases hq : q < 0
  · have hfs : floatStr q
        = '-' :: (natStr (q.num.natAbs * 10 ^ decExp q.den / q.den / 10 ^ decExp q.den)
            ++ '.' :: (if decExp q.den = 0 then ['0']
              else padZeros (decExp q.den)
                (natStr (q.num.natAbs * 10 ^ decExp q.den / q.den % 10 ^ decExp q.den)))) := by
      rw [floatStr, if_pos hq]
      rfl
    rw [hfs]
    simp only [List.head?_cons, Option.some_inj]
    rw [if_pos trivial]
    simp only [List.drop_succ_cons, List.drop_zero]
    rw [hbody]
    simp only [Option.map_some']
    rw [abs_of_neg hq, neg_neg]
  · have hfs : floatStr q
        = natStr (q.num.natAbs * 10 ^ decExp q.den / q.den / 10 ^ decExp q.den)
            ++ '.' :: (if decExp q.den = 0 then ['0']
              else padZeros (decExp q.den)
                (natStr (q.num.natAbs * 10 ^ decExp q.den / q.den % 10 ^ decExp q.den))) := by
      rw [floatStr, if_neg hq]
      rfl
    rw [hfs]
    obtain ⟨c, t, hct⟩ :=
      List.exists_cons_of_ne_nil
        (natStr_ne_nil (q.num.natAbs * 10 ^ decExp q.den / q.den / 10 ^ decExp q.den))
    have hcd : c.isDigit = true := natStr_digits (hct ▸ List.mem_cons_self c t)
    rw [hct, List.cons_append]
    simp only [List.head?_cons]
    have hne1 : ¬ (some c = some '-') := by
      intro hcon
      rw [Option.some.inj hcon] at hcd
      exact absurd hcd (by decide)
    have hne2 : ¬ (some c = some '+') := by
      intro hcon
      rw [Option.some.inj hcon] at hcd
      exact absurd hcd (by decide)
    rw [if_neg hne1, if_neg hne2, ← List.cons_append, ← hct, hbody,
      abs_of_nonneg (le_of_not_lt hq)]

/-- C8: for every input on which `AmountParser` succeeds, re-parsing the
string rendering of the parsed value gives the same result:
`parse (str (parse x)) = parse x` for all parseable `x`. -/
theorem cleanAmount_idempotent (x : Option Str) (q : ℚ)
    (h : cleanAmount x = some q) :
    cleanAmount (some (floatStr q)) = some q := by
  obtain ⟨K, hK⟩ : ∃ K, (q.den : ℕ) ∣ 10 ^ K := by
    cases x with
    | none => simp [cleanAmount] at h
    | some s => exact pyFloat_den_dvd h
  show pyFloat (parenNeg (stripSymbols (trimChars (floatStr q)))) = some q
  rw [trimChars_eq_self (fun c hc => floatStr_no_whitespace hc),
    stripSymbols_floatStr, parenNeg_floatStr]
  exact floatStr_roundtrip hK

/-- Witness for C8: the accounting-format amount `"($1,234.56)"` parses to
`-1234.56`, renders back to `"-1234.56"`, and re-parses to the same value. -/
theorem cleanAmount_idempotent_witness :
    cleanAmount (some (floatStr (-(30864 / 25 : ℚ)))) = some (-(30864 / 25 : ℚ)) :=
  cleanAmount_idempotent (some "($1,234.56)".toList) (-(30864 / 25 : ℚ)) (by decide)

end FinAgent
